import Mathlib

/- Verification of the retrieval-and-context-assembly pipeline of a RAG
   chatbot (src/services/rag_service.py, src/services/openai_service.py,
   src/services/pdf_section_processor_service.py).

   Text is modelled as `List Char`.  Python string slicing, `str.rfind`
   and `str.strip` are modelled with their CPython semantics: negative
   indices count from the end of the string and bounds are clamped to
   the string. -/

set_option maxRecDepth 100000

/-- Python index adjustment for slice and `rfind` bounds: a negative
index counts from the end; the result is clamped into `[0, n]`. -/
def pyAdjIdx (n : Nat) (i : Int) : Nat :=
  min ((if i < 0 then i + n else i).toNat) n

/-- Python slice `s[a:b]` with step 1. -/
def pySlice (s : List Char) (a b : Int) : List Char :=
  (s.take (pyAdjIdx s.length b)).drop (pyAdjIdx s.length a)

/-- Whitespace characters removed by Python `str.strip` (the ASCII ones,
which are the only ones the chunker can produce at a chunk edge). -/
def isPySpace (c : Char) : Bool :=
  c = ' ' || c = '\t' || c = '\n' || c = '\x0b' || c = '\x0c' || c = '\r'

/-- Python `str.strip`: drop whitespace from both ends. -/
def pyStrip (s : List Char) : List Char :=
  ((s.dropWhile isPySpace).reverse.dropWhile isPySpace).reverse

/-- One left-to-right pass recording the last position `p` in the
adjusted window `[lo, hi)` at which `sub` occurs in full. -/
def rfindGo (sub : List Char) (lo hi : Nat) :
    List Char → Nat → Option Nat → Option Nat
  | [], _, best => best
  | c :: rest, p, best =>
      rfindGo sub lo hi rest (p + 1)
        (if lo ≤ p ∧ p + sub.length ≤ hi ∧ sub.isPrefixOf (c :: rest) = true
         then some p else best)

/-- Python `s.rfind(sub, a, b)`: the highest index of a full occurrence
of `sub` inside the adjusted window, or -1 when there is none.  `sub` is
non-empty at every use site in this development. -/
def pyRfind (s sub : List Char) (a b : Int) : Int :=
  match rfindGo sub (pyAdjIdx s.length a) (pyAdjIdx s.length b) s 0 none with
  | some p => (p : Int)
  | none => -1

namespace RAGService

/-- The break markers tried in order by `RAGService.chunk_text`
(rag_service.py line 57). -/
def breakChars : List (List Char) :=
  [['\n', '\n'], ['.', ' '], ['.', '\n'], ['!', '\n'], ['?', '\n']]

/-- The for-loop over break characters (rag_service.py lines 57-61): the
first marker whose last occurrence is strictly after `start` moves the
window end to just past that marker.  Note that a failed `rfind` returns
-1, which also passes the `break_pos > start` test when `start < -1`,
exactly as in the Python code. -/
def findBreakEnd (text : List Char) (start endI : Int) :
    List (List Char) → Int
  | [] => endI
  | bc :: rest =>
      let p := pyRfind text bc start endI
      if start < p then p + bc.length else findBreakEnd text start endI rest

/-- One iteration of the while-loop of `RAGService.chunk_text`
(rag_service.py lines 54-65): the stripped chunk of this iteration and
the next value of `start` (namely `end - chunk_overlap`). -/
def chunkStep (cs ov : Nat) (text : List Char) (start : Int) :
    List Char × Int :=
  let e0 : Int := start + cs
  let e1 : Int :=
    if e0 < (text.length : Int) then findBreakEnd text start e0 breakChars
    else e0
  (pyStrip (pySlice text start e1), e1 - ov)

/-- Fuel-indexed unfolding of the while-loop of `chunk_text`; `none`
means the loop has not finished within `fuel` iterations (so
`(∀ fuel, ... = none)` states non-termination). -/
def chunkTextAux (cs ov : Nat) (text : List Char) :
    Nat → Int → Option (List (List Char))
  | 0, _ => none
  | fuel + 1, start =>
      if start < (text.length : Int) then
        (chunkTextAux cs ov text fuel (chunkStep cs ov text start).2).map
          (fun rest =>
            if (chunkStep cs ov text start).1 = [] then rest
            else (chunkStep cs ov text start).1 :: rest)
      else some []

/-- `RAGService.chunk_text` (rag_service.py lines 50-68), with the chunk
size and overlap as explicit parameters (the constructor fixes them to
1000 and 200). -/
def chunk_text (cs ov : Nat) (text : List Char) (fuel : Nat) :
    Option (List (List Char)) :=
  chunkTextAux cs ov text fuel 0

end RAGService

/-- A text on which `chunk_text` with the production configuration
(chunk size 1000, overlap 200) never advances: the only break marker in
the first window sits at offset 198, so the window is cut at 200 and
`start` is reset to `200 - 200 = 0` forever. -/
def stallText : List Char :=
  List.replicate 198 'a' ++ '\n' :: '\n' :: List.replicate 801 'a'

/-- A text showing that a configuration with `chunk_size ≤ overlap` is
not rejected: with chunk size 2 and overlap 2 the loop re-reads the
same window forever. -/
def aaaText : List Char := ['a', 'a', 'a']

/- ## Data model: document store session

The SQLAlchemy session is modelled by the list of committed (durably
persisted) rows and the list of rows added but not yet committed.
`commit` makes pending rows durable; `rollback` discards them, which is
what SQLAlchemy does with objects pending in the transaction. -/

structure Document where
  filename : String
  content : List Char
  embedding : Option (List Int)
  chunk_index : Nat
deriving DecidableEq

structure Db where
  committed : List Document
  pending : List Document
deriving DecidableEq

def Db.add (db : Db) (d : Document) : Db :=
  { db with pending := db.pending ++ [d] }

def Db.commit (db : Db) : Db :=
  ⟨db.committed ++ db.pending, []⟩

def Db.rollback (db : Db) : Db :=
  { db with pending := [] }

namespace RAGService

/-- The page texts yielded by a PDF extractor: empty pages contribute
nothing, non-empty pages are concatenated with a trailing newline
(rag_service.py lines 27-31 and 38-42 use the same accumulation). -/
def pagesText (pages : List (List Char)) : List Char :=
  pages.foldl (fun acc p => if p = [] then acc else acc ++ p ++ ['\n']) []

/-- `RAGService.extract_text_from_pdf` (rag_service.py lines 19-48).
The two extractors are oracles: `none` models the extractor raising an
exception, `some pages` the page texts it returns.  The Bool in the
result records whether the PyPDF2 fallback was attempted; the code
reaches the fallback only when pdfplumber raises, never on empty text. -/
def extract_text_from_pdf (primary fallback : Option (List (List Char))) :
    Except Unit (List Char × Bool) :=
  match primary with
  | some pages => .ok (pagesText pages, false)
  | none =>
      match fallback with
      | some pages => .ok (pagesText pages, true)
      | none => .error ()

/-- The per-chunk loop of `RAGService.process_pdf` (rag_service.py
lines 89-116).  `emb i` is the embedding-gateway oracle for chunk `i`
(`none` models `generate_embedding` raising).  On success the document
is added and every fifth chunk triggers a commit; on failure the
session is rolled back, which also discards pending adds.  Returns the
session and the `successful_chunks` counter. -/
def processChunksLoop (emb : Nat → Option (List Int)) (filename : String) :
    List (List Char) → Nat → Db → Nat → Db × Nat
  | [], _, db, succ => (db, succ)
  | chunk :: rest, i, db, succ =>
      match emb i with
      | some e =>
          let db1 := db.add ⟨filename, chunk, some e, i⟩
          let db2 := if (i + 1) % 5 = 0 then db1.commit else db1
          processChunksLoop emb filename rest (i + 1) db2 (succ + 1)
      | none => processChunksLoop emb filename rest (i + 1) db.rollback succ

/-- `RAGService.process_pdf` (rag_service.py lines 70-136): extract,
reject blank text, chunk, run the per-chunk loop, final commit, and
return `successful_chunks > 0`.  A raising extractor is caught by the
outer handler (rollback, return False); `none` as overall result means
the chunking loop did not terminate within `fuel`. -/
def process_pdf (primary fallback : Option (List (List Char)))
    (emb : Nat → Option (List Int)) (filename : String) (fuel : Nat)
    (db : Db) : Option (Bool × Db) :=
  match extract_text_from_pdf primary fallback with
  | .error _ => some (false, db.rollback)
  | .ok (text, _) =>
      if pyStrip text = [] then some (false, db)
      else
        match chunk_text 1000 200 text fuel with
        | none => none
        | some chunks =>
            let r := processChunksLoop emb filename chunks 0 db 0
            some (decide (0 < r.2), r.1.commit)

end RAGService

namespace PDFSectionProcessor

/-- One iteration of the while-loop of `PDFSectionProcessor.chunk_text`
(pdf_section_processor_service.py lines 50-60): the window is cut at
the last space strictly after `start` if any (`end = cut_pos`, the
space is not included), then stripped. -/
def sectionChunkStep (cs ov : Nat) (text : List Char) (start : Int) :
    List Char × Int :=
  let e0 : Int := start + cs
  let e1 : Int :=
    if e0 < (text.length : Int) then
      let cut := pyRfind text [' '] start e0
      if cut ≠ -1 ∧ start < cut then cut else e0
    else e0
  (pyStrip (pySlice text start e1), e1 - ov)

/-- Fuel-indexed unfolding of the section-processor while-loop. -/
def chunkTextAux (cs ov : Nat) (text : List Char) :
    Nat → Int → Option (List (List Char))
  | 0, _ => none
  | fuel + 1, start =>
      if start < (text.length : Int) then
        (chunkTextAux cs ov text fuel (sectionChunkStep cs ov text start).2).map
          (fun rest =>
            if (sectionChunkStep cs ov text start).1 = [] then rest
            else (sectionChunkStep cs ov text start).1 :: rest)
      else some []

/-- `PDFSectionProcessor.chunk_text` (pdf_section_processor_service.py
lines 46-62); the constructor defaults are chunk size 3000, overlap
200. -/
def chunk_text (cs ov : Nat) (text : List Char) (fuel : Nat) :
    Option (List (List Char)) :=
  chunkTextAux cs ov text fuel 0

/-- The per-chunk loop of `PDFSectionProcessor.process_section`
(pdf_section_processor_service.py lines 68-84): same add / commit
every 5 / rollback-on-failure discipline as the plain pipeline, with a
`saved_chunks` counter. -/
def sectionLoop (emb : Nat → Option (List Int)) (fname : String) :
    List (List Char) → Nat → Db → Nat → Db × Nat
  | [], _, db, saved => (db, saved)
  | chunk :: rest, i, db, saved =>
      match emb i with
      | some e =>
          let db1 := db.add ⟨fname, chunk, some e, i⟩
          let db2 := if (i + 1) % 5 = 0 then db1.commit else db1
          sectionLoop emb fname rest (i + 1) db2 (saved + 1)
      | none => sectionLoop emb fname rest (i + 1) db.rollback saved

/-- `PDFSectionProcessor.process_section` (lines 64-90): chunk the
section, run the loop with the section-suffixed source name, final
commit. -/
def process_section (emb : Nat → Option (List Int)) (sectionText : List Char)
    (sectionIndex : Nat) (pdfName : String) (cs ov fuel : Nat) (db : Db) :
    Option Db :=
  (chunk_text cs ov sectionText fuel).map (fun chunks =>
    ((sectionLoop emb (pdfName ++ "_section" ++ toString sectionIndex)
        chunks 0 db 0).1).commit)

end PDFSectionProcessor

/-- Ten one-character chunks, the shape of the C2 scenario. -/
def chunks10 : List (List Char) :=
  [['0'], ['1'], ['2'], ['3'], ['4'], ['5'], ['6'], ['7'], ['8'], ['9']]

/-- An embedding oracle failing exactly on chunks 3, 6 and 9. -/
def embFail369 (i : Nat) : Option (List Int) :=
  if i = 3 ∨ i = 6 ∨ i = 9 then none else some [1]

/-- The row invariant of the document store: non-empty content and a
present (non-null) embedding vector. -/
def docOk (d : Document) : Prop :=
  d.content ≠ [] ∧ d.embedding.isSome = true

/-- The invariant on a whole session (committed and pending rows). -/
def dbOk (db : Db) : Prop :=
  (∀ d ∈ db.committed, docOk d) ∧ (∀ d ∈ db.pending, docOk d)

/- ## Conversation, message and search models -/

structure Turn where
  user_id : Int
  message : String
  response : String
  created_at : Int
deriving DecidableEq

structure Msg where
  role : String
  content : String
deriving DecidableEq

namespace OpenAIService

/-- The system prompt with the document context interpolated
(openai_service.py lines 37-91).  The surrounding Spanish persona text
is abbreviated to its opening words; the claims depend only on where
the context is interpolated. -/
def systemPromptContent (context : String) : String :=
  "# IDENTIDAD Y PERSONA ... Contexto de documentos relevantes: " ++ context

/-- The history separator inserted before recent history
(openai_service.py lines 98-101). -/
def historyStartMarker : Msg :=
  ⟨"system", "=== Historial de conversación de las últimas 24 horas ==="⟩

/-- The history terminator (openai_service.py lines 106-109). -/
def historyEndMarker : Msg :=
  ⟨"system", "=== Fin del historial - Responde a la nueva consulta ==="⟩

/-- The message list built by `OpenAIService.generate_response`
(openai_service.py lines 34-112): the system prompt; then, when the
history is non-empty, a start marker, the last 20 MESSAGES of the
history (`conversation_history_24h[-20:]`) and an end marker; then the
user query. -/
def generate_response_messages (query context : String)
    (history : List Msg) : List Msg :=
  ⟨"system", systemPromptContent context⟩ ::
    ((if history.isEmpty then []
      else historyStartMarker ::
        (history.drop (history.length - 20) ++ [historyEndMarker])) ++
     [⟨"user", query⟩])

end OpenAIService

namespace RAGService

/-- The flattening of conversation rows into alternating role-tagged
messages (rag_service.py lines 175-178). -/
def historyMessages : List Turn → List Msg
  | [] => []
  | c :: rest =>
      ⟨"user", c.message⟩ :: ⟨"assistant", c.response⟩ :: historyMessages rest

/-- The ORDER BY key of `get_conversation_history_24h`. -/
def turnLe (a b : Turn) : Prop := a.created_at ≤ b.created_at

instance : DecidableRel turnLe :=
  fun a b => inferInstanceAs (Decidable (a.created_at ≤ b.created_at))

instance : IsTotal Turn turnLe :=
  ⟨fun a b => Int.le_total a.created_at b.created_at⟩

instance : IsTrans Turn turnLe := ⟨fun _ _ _ h1 h2 => le_trans h1 h2⟩

/-- The query of `RAGService.get_conversation_history_24h`
(rag_service.py lines 167-173): stored turns filtered to the matching
user and the trailing 24 hours (86400 seconds), ordered ascending by
`created_at`.  SQL ORDER BY is modelled as a sort by the key. -/
def conversations24h (uid now : Int) (store : List Turn) : List Turn :=
  List.insertionSort turnLe
    (store.filter (fun t =>
      t.user_id == uid && decide (now - 86400 ≤ t.created_at)))

/-- `RAGService.get_conversation_history_24h` (lines 164-184): the
filtered, sorted turns flattened to messages. -/
def get_conversation_history_24h (uid now : Int) (store : List Turn) :
    List Msg :=
  historyMessages (conversations24h uid now store)

/-- The fixed no-relevant-information marker (rag_service.py line 195). -/
def noInfoMarker : String :=
  "No se encontró información relevante en los documentos procesados."

/-- Python `"\n\n".join` (rag_service.py line 193). -/
def joinBlank : List String → String
  | [] => ""
  | s :: rest => rest.foldl (fun acc x => acc ++ "\n\n" ++ x) s

/-- The context block passed by `RAGService.get_response` to the
generation call (rag_service.py lines 192-195). -/
def buildContext (similar : List String) : String :=
  if similar.isEmpty then noInfoMarker else joinBlank similar

/-- The assembly stage of `RAGService.get_response` (lines 186-201):
the messages the generation gateway receives for a query. -/
def get_response_messages (query : String) (similar : List String)
    (history : List Msg) : List Msg :=
  OpenAIService.generate_response_messages query (buildContext similar) history

end RAGService

/-- A stored document row as seen by the similarity query. -/
structure StoredDoc where
  id : Nat
  content : String
  embedding : List Int
deriving DecidableEq

/-- Squared Euclidean distance between embedding vectors.  The pgvector
operator in the query is Euclidean distance; ranking by the distance is
the same as ranking by its square, and exact arithmetic stands in for
the float values. -/
def dist2 (q v : List Int) : Int :=
  ((q.zip v).map (fun p => (p.1 - p.2) * (p.1 - p.2))).sum

/-- The row order imposed by the `ORDER BY distance` clause. -/
def distLe (q : List Int) (a b : StoredDoc) : Prop :=
  dist2 q a.embedding ≤ dist2 q b.embedding

instance (q : List Int) : DecidableRel (distLe q) :=
  fun a b =>
    inferInstanceAs (Decidable (dist2 q a.embedding ≤ dist2 q b.embedding))

/-- The executions the SQL of `RAGService.search_similar_content`
(rag_service.py lines 150-157) can produce: `SELECT content ...
ORDER BY distance LIMIT k` returns the first `k` rows of some
permutation of the table sorted by distance — the relative order of
equal-distance rows is not constrained by the query, which has no
second sort key. -/
def searchRows (table : List StoredDoc) (q : List Int) (k : Nat)
    (rows : List StoredDoc) : Prop :=
  ∃ sortedTable, table.Perm sortedTable ∧
    List.Sorted (distLe q) sortedTable ∧ rows = sortedTable.take k

/-- The contents list `search_similar_content` builds from the rows
(rag_service.py line 158). -/
def searchContents (rows : List StoredDoc) : List String :=
  rows.map (fun r => r.content)

/-- The ordering the claim asserts: strictly increasing distance, with
ties broken by lower id first. -/
def distThenIdLt (q : List Int) (a b : StoredDoc) : Prop :=
  dist2 q a.embedding < dist2 q b.embedding ∨
    (dist2 q a.embedding = dist2 q b.embedding ∧ a.id < b.id)

instance (q : List Int) : DecidableRel (distThenIdLt q) :=
  fun a b =>
    inferInstanceAs (Decidable (dist2 q a.embedding < dist2 q b.embedding ∨
      (dist2 q a.embedding = dist2 q b.embedding ∧ a.id < b.id)))

/-- Thirty conversation turns with recognisable payloads. -/
def turns30 : List Turn :=
  (List.range 30).map
    (fun i => ⟨0, "u" ++ toString i, "a" ++ toString i, (i : Int)⟩)

/- ## Basic lemmas about the Python string primitives -/

lemma pyAdjIdx_le (n : Nat) (i : Int) : pyAdjIdx n i ≤ n := by
  unfold pyAdjIdx; omega

lemma pyAdjIdx_sub_le (n : Nat) (a b : Int) (hab : a ≤ b) :
    pyAdjIdx n b - pyAdjIdx n a ≤ (b - a).toNat := by
  unfold pyAdjIdx
  split <;> split <;> omega

lemma pyAdjIdx_of_nonneg_le (n : Nat) (i : Int) (h : 0 ≤ i) :
    (pyAdjIdx n i : Int) ≤ i := by
  unfold pyAdjIdx
  split
  · omega
  · omega

lemma length_pySlice (s : List Char) (a b : Int) :
    (pySlice s a b).length = pyAdjIdx s.length b - pyAdjIdx s.length a := by
  unfold pySlice
  rw [List.length_drop, List.length_take]
  have := pyAdjIdx_le s.length b
  omega

lemma length_dropWhile_le (p : Char → Bool) :
    ∀ l : List Char, (List.dropWhile p l).length ≤ l.length := by
  intro l
  induction l with
  | nil => simp [List.dropWhile]
  | cons c t ih =>
      rw [List.dropWhile]
      split
      · simp only [List.length_cons]; omega
      · simp

lemma length_pyStrip_le (s : List Char) : (pyStrip s).length ≤ s.length := by
  unfold pyStrip
  rw [List.length_reverse]
  calc ((s.dropWhile isPySpace).reverse.dropWhile isPySpace).length
      ≤ (s.dropWhile isPySpace).reverse.length := length_dropWhile_le _ _
    _ = (s.dropWhile isPySpace).length := List.length_reverse _
    _ ≤ s.length := length_dropWhile_le _ _

lemma rfindGo_bounds (sub : List Char) (lo hi : Nat) :
    ∀ (s : List Char) (p : Nat) (best : Option Nat),
      (∀ q, best = some q → lo ≤ q ∧ q + sub.length ≤ hi) →
      ∀ q, rfindGo sub lo hi s p best = some q →
        lo ≤ q ∧ q + sub.length ≤ hi := by
  intro s
  induction s with
  | nil => intro p best hbest q hq; exact hbest q hq
  | cons c rest ih =>
      intro p best hbest q hq
      rw [rfindGo] at hq
      refine ih (p + 1) _ ?_ q hq
      intro q' hq'
      split at hq'
      · rename_i hcond
        cases hq'
        exact ⟨hcond.1, hcond.2.1⟩
      · exact hbest q' hq'

lemma pyRfind_bounds (s sub : List Char) (a b : Int) (q : Nat)
    (h : pyRfind s sub a b = (q : Int)) :
    pyAdjIdx s.length a ≤ q ∧ q + sub.length ≤ pyAdjIdx s.length b := by
  unfold pyRfind at h
  rcases hgo : rfindGo sub (pyAdjIdx s.length a) (pyAdjIdx s.length b) s 0 none with _ | p
  · rw [hgo] at h; simp at h
  · rw [hgo] at h
    simp at h
    subst h
    exact rfindGo_bounds sub _ _ s 0 none (by intro q hq; cases hq) p hgo

/- ## Bounds on the chunker window -/

lemma pyRfind_negSucc (s sub : List Char) (a b : Int) (q : Nat)
    (h : pyRfind s sub a b = Int.negSucc q) : q = 0 := by
  unfold pyRfind at h
  rcases hgo : rfindGo sub (pyAdjIdx s.length a) (pyAdjIdx s.length b) s 0 none with _ | p
  · rw [hgo] at h
    have h2 : (-1 : Int) = Int.negSucc q := h
    rw [Int.negSucc_eq] at h2
    omega
  · rw [hgo] at h
    have h2 : (p : Int) = Int.negSucc q := h
    rw [Int.negSucc_eq] at h2
    omega

lemma findBreakEnd_bound (text : List Char) (start : Int) (cs : Nat)
    (hcs : 1 ≤ cs) :
    ∀ l : List (List Char), (∀ bc ∈ l, bc.length = 2) →
      pyAdjIdx text.length (RAGService.findBreakEnd text start (start + cs) l) -
        pyAdjIdx text.length start ≤ cs := by
  intro l
  induction l with
  | nil =>
      intro _
      rw [RAGService.findBreakEnd]
      have h := pyAdjIdx_sub_le text.length start (start + cs) (by omega)
      omega
  | cons bc rest ih =>
      intro hlen
      have hbc : bc.length = 2 := hlen bc (by simp)
      rw [RAGService.findBreakEnd]
      split
      · rename_i hgt
        rcases hq : pyRfind text bc start (start + cs) with q | q
        · simp only [Int.ofNat_eq_coe] at hgt ⊢
          have hb := pyRfind_bounds text bc start (start + cs) q hq
          have he1 : (pyAdjIdx text.length ((q : Int) + bc.length) : Int) ≤
              (q : Int) + bc.length :=
            pyAdjIdx_of_nonneg_le text.length _ (by omega)
          have hs := pyAdjIdx_sub_le text.length start (start + cs) (by omega)
          omega
        · have hq0 : q = 0 := pyRfind_negSucc text bc start (start + cs) q hq
          subst hq0
          have hns : Int.negSucc 0 = -1 := rfl
          rw [hns]
          have he1 : (pyAdjIdx text.length ((-1) + bc.length) : Int) ≤
              (-1) + bc.length :=
            pyAdjIdx_of_nonneg_le text.length _ (by omega)
          omega
      · exact ih (fun b hb => hlen b (by simp [hb]))

lemma chunkStep_length_le (cs ov : Nat) (hcs : 1 ≤ cs) (text : List Char)
    (start : Int) :
    ((RAGService.chunkStep cs ov text start).1).length ≤ cs := by
  unfold RAGService.chunkStep
  dsimp only
  have hbk : ∀ bc ∈ RAGService.breakChars, bc.length = 2 := by decide
  split
  · calc (pyStrip (pySlice text start
          (RAGService.findBreakEnd text start (start + cs)
            RAGService.breakChars))).length
        ≤ (pySlice text start
            (RAGService.findBreakEnd text start (start + cs)
              RAGService.breakChars)).length := length_pyStrip_le _
      _ = pyAdjIdx text.length
            (RAGService.findBreakEnd text start (start + cs)
              RAGService.breakChars) - pyAdjIdx text.length start :=
          length_pySlice _ _ _
      _ ≤ cs := findBreakEnd_bound text start cs hcs RAGService.breakChars hbk
  · have h1 := length_pyStrip_le (pySlice text start (start + cs))
    have h2 := length_pySlice text start (start + cs)
    have h3 := pyAdjIdx_sub_le text.length start (start + cs) (by omega)
    omega

lemma chunkTextAux_length_le (cs ov : Nat) (text : List Char) (hcs : 1 ≤ cs) :
    ∀ (fuel : Nat) (start : Int) (res : List (List Char)),
      RAGService.chunkTextAux cs ov text fuel start = some res →
      ∀ c ∈ res, c.length ≤ cs := by
  intro fuel
  induction fuel with
  | zero => intro start res h; cases h
  | succ n ih =>
      intro start res h
      rw [RAGService.chunkTextAux] at h
      split at h
      · rcases Option.map_eq_some'.mp h with ⟨rest, hrest, hres⟩
        intro c hc
        rcases hres ▸ hc with hc2
        split at hc2
        · exact ih _ rest hrest c hc2
        · rcases List.mem_cons.mp hc2 with hceq | hcmem
          · exact hceq ▸ chunkStep_length_le cs ov hcs text start
          · exact ih _ rest hrest c hcmem
      · cases h
        intro c hc
        cases hc

/-- C10: every chunk returned by `RAGService.chunk_text` has length at
most `chunk_size`, for any configuration with `overlap < chunk_size`,
any input text, and any fuel sufficient for the loop to finish. -/
theorem C10_chunk_length_bound (cs ov : Nat) (text : List Char)
    (fuel : Nat) (res : List (List Char)) (hov : ov < cs)
    (h : RAGService.chunk_text cs ov text fuel = some res) :
    ∀ c ∈ res, c.length ≤ cs :=
  chunkTextAux_length_le cs ov text (by omega) fuel 0 res h

/-- C10 witness: with chunk size 3 and overlap 1 the text "abcdef"
chunks in 10 steps of fuel to three pieces, each of length at most 3. -/
theorem C10_chunk_length_bound_witness :
    (1 < 3) ∧ ∀ c ∈ [['a', 'b', 'c'], ['c', 'd', 'e'], ['e', 'f']],
      c.length ≤ 3 :=
  ⟨by decide,
   C10_chunk_length_bound 3 1 "abcdef".toList 10
     [['a', 'b', 'c'], ['c', 'd', 'e'], ['e', 'f']]
     (by decide) (by decide)⟩

/-- C1: refuted as stated.  With the production configuration
(chunk size 1000, overlap 200) the loop of `chunk_text` does not make
forward progress on every input: on `stallText` (198 times 'a', a
paragraph break, 801 times 'a'; 1001 characters) the window is cut at
the paragraph break (offset 198 + 2) and the new start is
200 - 200 = 0, so the loop never terminates: it yields `none` for every
amount of fuel. -/
theorem C1_no_forward_progress :
    ∀ fuel, RAGService.chunk_text 1000 200 stallText fuel = none := by
  have hlen : (0 : Int) < (stallText.length : Int) := by decide
  have hstep : (RAGService.chunkStep 1000 200 stallText 0).2 = 0 := by decide
  intro fuel
  unfold RAGService.chunk_text
  induction fuel with
  | zero => rfl
  | succ n ih =>
      rw [RAGService.chunkTextAux, if_pos hlen, hstep, ih]
      rfl

/-- C9: refuted as stated.  A configuration with
`chunk_size ≤ overlap` is not rejected: `chunk_text` has no
configuration check at all, and with chunk size 2 and overlap 2 the
input "aaa" makes the loop re-read the window [0, 2) forever, so the
code loops forever instead of failing fast. -/
theorem C9_no_fail_fast :
    ∀ fuel, RAGService.chunk_text 2 2 aaaText fuel = none := by
  have hlen : (0 : Int) < (aaaText.length : Int) := by decide
  have hstep : (RAGService.chunkStep 2 2 aaaText 0).2 = 0 := by decide
  intro fuel
  unfold RAGService.chunk_text
  induction fuel with
  | zero => rfl
  | succ n ih =>
      rw [RAGService.chunkTextAux, if_pos hlen, hstep, ih]
      rfl

/- ## Ingestion invariants -/

lemma chunkTextAux_ne_nil (cs ov : Nat) (text : List Char) :
    ∀ (fuel : Nat) (start : Int) (res : List (List Char)),
      RAGService.chunkTextAux cs ov text fuel start = some res →
      ∀ c ∈ res, c ≠ [] := by
  intro fuel
  induction fuel with
  | zero => intro start res h; cases h
  | succ n ih =>
      intro start res h
      rw [RAGService.chunkTextAux] at h
      split at h
      · rcases Option.map_eq_some'.mp h with ⟨rest, hrest, hres⟩
        intro c hc
        rcases hres ▸ hc with hc2
        split at hc2
        · exact ih _ rest hrest c hc2
        · rename_i hne
          rcases List.mem_cons.mp hc2 with hceq | hcmem
          · exact hceq ▸ hne
          · exact ih _ rest hrest c hcmem
      · cases h
        intro c hc
        cases hc

lemma sectionChunkTextAux_ne_nil (cs ov : Nat) (text : List Char) :
    ∀ (fuel : Nat) (start : Int) (res : List (List Char)),
      PDFSectionProcessor.chunkTextAux cs ov text fuel start = some res →
      ∀ c ∈ res, c ≠ [] := by
  intro fuel
  induction fuel with
  | zero => intro start res h; cases h
  | succ n ih =>
      intro start res h
      rw [PDFSectionProcessor.chunkTextAux] at h
      split at h
      · rcases Option.map_eq_some'.mp h with ⟨rest, hrest, hres⟩
        intro c hc
        rcases hres ▸ hc with hc2
        split at hc2
        · exact ih _ rest hrest c hc2
        · rename_i hne
          rcases List.mem_cons.mp hc2 with hceq | hcmem
          · exact hceq ▸ hne
          · exact ih _ rest hrest c hcmem
      · cases h
        intro c hc
        cases hc

lemma dbOk_add (db : Db) (d : Document) (h : dbOk db) (hd : docOk d) :
    dbOk (db.add d) := by
  refine ⟨h.1, ?_⟩
  intro d2 hd2
  rcases List.mem_append.mp hd2 with h2 | h2
  · exact h.2 d2 h2
  · rcases List.mem_singleton.mp h2 with rfl
    exact hd

lemma dbOk_commit (db : Db) (h : dbOk db) : dbOk db.commit := by
  refine ⟨?_, ?_⟩
  · intro d hd
    rcases List.mem_append.mp hd with h2 | h2
    · exact h.1 d h2
    · exact h.2 d h2
  · intro d hd
    cases hd

lemma dbOk_rollback (db : Db) (h : dbOk db) : dbOk db.rollback := by
  refine ⟨h.1, ?_⟩
  intro d hd
  cases hd

lemma processChunksLoop_dbOk (emb : Nat → Option (List Int)) (fname : String) :
    ∀ (chunks : List (List Char)) (i : Nat) (db : Db) (succ : Nat),
      dbOk db → (∀ c ∈ chunks, c ≠ []) →
      dbOk (RAGService.processChunksLoop emb fname chunks i db succ).1 := by
  intro chunks
  induction chunks with
  | nil => intro i db succ hdb _; exact hdb
  | cons chunk rest ih =>
      intro i db succ hdb hch
      rw [RAGService.processChunksLoop]
      rcases hemb : emb i with _ | e
      · exact ih (i + 1) db.rollback succ (dbOk_rollback db hdb)
          (fun c hc => hch c (List.mem_cons_of_mem _ hc))
      · have hd : docOk ⟨fname, chunk, some e, i⟩ :=
          ⟨hch chunk (List.mem_cons_self _ _), rfl⟩
        show dbOk (RAGService.processChunksLoop emb fname rest (i + 1)
          (if (i + 1) % 5 = 0 then (db.add ⟨fname, chunk, some e, i⟩).commit
           else db.add ⟨fname, chunk, some e, i⟩) (succ + 1)).1
        refine ih (i + 1) _ (succ + 1) ?_
          (fun c hc => hch c (List.mem_cons_of_mem _ hc))
        split
        · exact dbOk_commit _ (dbOk_add db _ hdb hd)
        · exact dbOk_add db _ hdb hd

lemma sectionLoop_dbOk (emb : Nat → Option (List Int)) (fname : String) :
    ∀ (chunks : List (List Char)) (i : Nat) (db : Db) (saved : Nat),
      dbOk db → (∀ c ∈ chunks, c ≠ []) →
      dbOk (PDFSectionProcessor.sectionLoop emb fname chunks i db saved).1 := by
  intro chunks
  induction chunks with
  | nil => intro i db saved hdb _; exact hdb
  | cons chunk rest ih =>
      intro i db saved hdb hch
      rw [PDFSectionProcessor.sectionLoop]
      rcases hemb : emb i with _ | e
      · exact ih (i + 1) db.rollback saved (dbOk_rollback db hdb)
          (fun c hc => hch c (List.mem_cons_of_mem _ hc))
      · have hd : docOk ⟨fname, chunk, some e, i⟩ :=
          ⟨hch chunk (List.mem_cons_self _ _), rfl⟩
        show dbOk (PDFSectionProcessor.sectionLoop emb fname rest (i + 1)
          (if (i + 1) % 5 = 0 then (db.add ⟨fname, chunk, some e, i⟩).commit
           else db.add ⟨fname, chunk, some e, i⟩) (saved + 1)).1
        refine ih (i + 1) _ (saved + 1) ?_
          (fun c hc => hch c (List.mem_cons_of_mem _ hc))
        split
        · exact dbOk_commit _ (dbOk_add db _ hdb hd)
        · exact dbOk_add db _ hdb hd

/-- C2: refuted as stated; the code loses previously-embedded but
not-yet-committed chunks.  With 10 chunks and embedding failures at
indices 3, 6 and 9, the `db.rollback()` executed on each failure
discards the pending adds of chunks 0-2, 5, 7 and 8; only chunk 4
(saved by the every-5 batch commit) is durably persisted, yet the
pipeline counts 7 successes and returns True. -/
theorem C2_rollback_discards_pending :
    (RAGService.processChunksLoop embFail369 "doc.pdf" chunks10 0
        ⟨[], []⟩ 0).1.commit.committed = [⟨"doc.pdf", ['4'], some [1], 4⟩] ∧
    (RAGService.processChunksLoop embFail369 "doc.pdf" chunks10 0
        ⟨[], []⟩ 0).2 = 7 := by
  constructor <;> rfl

/-- C6: confirmed.  Both ingestion variants preserve the row
invariant: every committed document row has non-empty content and a
present (non-null) embedding vector; a chunk whose embedding call
failed is never persisted, because its `Document` row is never even
constructed. -/
theorem C6_persisted_row_invariant :
    (∀ primary fallback emb fname fuel db res db2, dbOk db →
        RAGService.process_pdf primary fallback emb fname fuel db =
          some (res, db2) →
        ∀ d ∈ db2.committed, docOk d)
    ∧ (∀ emb sectionText idx pdfName cs ov fuel db db2, dbOk db →
        PDFSectionProcessor.process_section emb sectionText idx pdfName
          cs ov fuel db = some db2 →
        ∀ d ∈ db2.committed, docOk d) := by
  constructor
  · intro primary fallback emb fname fuel db res db2 hdb h
    unfold RAGService.process_pdf at h
    split at h
    · simp only [Option.some.injEq, Prod.mk.injEq] at h
      rcases h with ⟨_, rfl⟩
      exact fun d hd => hdb.1 d hd
    · split at h
      · simp only [Option.some.injEq, Prod.mk.injEq] at h
        rcases h with ⟨_, rfl⟩
        exact fun d hd => hdb.1 d hd
      · split at h
        · cases h
        · rename_i chunks hchunks
          simp only [Option.some.injEq, Prod.mk.injEq] at h
          rcases h with ⟨_, rfl⟩
          have hne := chunkTextAux_ne_nil 1000 200 _ fuel 0 chunks hchunks
          have hloop := processChunksLoop_dbOk emb fname chunks 0 db 0 hdb hne
          exact (dbOk_commit _ hloop).1
  · intro emb sectionText idx pdfName cs ov fuel db db2 hdb h
    unfold PDFSectionProcessor.process_section at h
    rcases hchunks : PDFSectionProcessor.chunk_text cs ov sectionText fuel
      with _ | chunks
    · rw [hchunks] at h
      cases h
    · rw [hchunks] at h
      simp only [Option.map_some', Option.some.injEq] at h
      rcases h with rfl
      have hne := sectionChunkTextAux_ne_nil cs ov _ fuel 0 chunks hchunks
      have hloop := sectionLoop_dbOk emb
        (pdfName ++ "_section" ++ toString idx) chunks 0 db 0 hdb hne
      exact (dbOk_commit _ hloop).1

/-- C6 witness: ingesting a one-page PDF with text "hi" commits a
single row, and it satisfies the invariant. -/
theorem C6_persisted_row_invariant_witness :
    ∀ d ∈ (⟨[⟨"d.pdf", ['h', 'i'], some [1], 0⟩], []⟩ : Db).committed,
      docOk d :=
  C6_persisted_row_invariant.1 (some [['h', 'i']]) none (fun _ => some [1])
    "d.pdf" 2 ⟨[], []⟩ true ⟨[⟨"d.pdf", ['h', 'i'], some [1], 0⟩], []⟩
    ⟨fun d hd => (List.not_mem_nil d hd).elim,
     fun d hd => (List.not_mem_nil d hd).elim⟩
    (by decide)

/-- C5 counterexample: a PDF whose primary extractor succeeds but
yields no usable text.  The fallback is never attempted (the flag in
the extraction result is false) and ingestion is declared failed
anyway, contradicting the claim that the fallback is attempted
whenever the primary yields no usable text. -/
theorem C5_counterexample :
    RAGService.extract_text_from_pdf (some [[]]) (some [['h', 'i']]) =
      .ok ([], false) ∧
    RAGService.process_pdf (some [[]]) (some [['h', 'i']])
      (fun _ => some [1]) "d.pdf" 5 ⟨[], []⟩ = some (false, ⟨[], []⟩) := by
  constructor <;> rfl

/-- C5 amended: the fallback extractor is attempted exactly when the
primary extractor raises (not whenever the primary yields no usable
text); and whenever extraction raises in both extractors or the
extracted text is blank, `process_pdf` reports failure and persists
nothing (committed rows unchanged). -/
theorem C5_fallback_and_failure :
    (∀ fallbackPages,
        RAGService.extract_text_from_pdf none (some fallbackPages) =
          .ok (RAGService.pagesText fallbackPages, true))
    ∧ RAGService.extract_text_from_pdf none none = .error ()
    ∧ (∀ primaryPages fallback,
        RAGService.extract_text_from_pdf (some primaryPages) fallback =
          .ok (RAGService.pagesText primaryPages, false))
    ∧ (∀ primary fallback emb fname fuel db,
        RAGService.extract_text_from_pdf primary fallback = .error () →
        RAGService.process_pdf primary fallback emb fname fuel db =
          some (false, db.rollback) ∧
        (db.rollback).committed = db.committed)
    ∧ (∀ primary fallback emb fname fuel db t fb,
        RAGService.extract_text_from_pdf primary fallback = .ok (t, fb) →
        pyStrip t = [] →
        RAGService.process_pdf primary fallback emb fname fuel db =
          some (false, db)) := by
  refine ⟨fun _ => rfl, rfl, fun _ _ => rfl, ?_, ?_⟩
  · intro primary fallback emb fname fuel db hex
    unfold RAGService.process_pdf
    rw [hex]
    exact ⟨rfl, rfl⟩
  · intro primary fallback emb fname fuel db t fb hex hst
    unfold RAGService.process_pdf
    rw [hex]
    show (if pyStrip t = [] then some (false, db) else _) = some (false, db)
    rw [if_pos hst]

/-- C5 witness: with both extractors raising, ingestion fails and the
store is unchanged; with a blank primary extraction, likewise. -/
theorem C5_fallback_and_failure_witness :
    RAGService.process_pdf none none (fun _ => some [1]) "d.pdf" 3
        ⟨[], []⟩ = some (false, (⟨[], []⟩ : Db).rollback) ∧
    RAGService.process_pdf (some [[]]) none (fun _ => some [1]) "d.pdf" 3
        ⟨[], []⟩ = some (false, ⟨[], []⟩) :=
  ⟨(C5_fallback_and_failure.2.2.2.1 none none (fun _ => some [1]) "d.pdf" 3
      ⟨[], []⟩ rfl).1,
   C5_fallback_and_failure.2.2.2.2 (some [[]]) none (fun _ => some [1])
     "d.pdf" 3 ⟨[], []⟩ [] false rfl rfl⟩

/- ## History and context assembly -/

lemma historyMessages_length : ∀ ts : List Turn,
    (RAGService.historyMessages ts).length = 2 * ts.length := by
  intro ts
  induction ts with
  | nil => rfl
  | cons t rest ih =>
      rw [RAGService.historyMessages]
      simp only [List.length_cons, ih]
      omega

lemma historyMessages_drop :
    ∀ (ts : List Turn) (n : Nat),
      RAGService.historyMessages (ts.drop n) =
        (RAGService.historyMessages ts).drop (2 * n) := by
  intro ts
  induction ts with
  | nil => intro n; simp [RAGService.historyMessages]
  | cons t rest ih =>
      intro n
      cases n with
      | zero => simp
      | succ m =>
          rw [List.drop_succ_cons, ih m, RAGService.historyMessages]
          rw [show 2 * (m + 1) = 2 * m + 1 + 1 by omega]
          rw [List.drop_succ_cons, List.drop_succ_cons]

/-- C3: refuted as stated (see the counterexample); the code keeps the
last 20 MESSAGES, i.e. the 10 most recent turns.  Amended statement:
for every non-empty history of turns, the assembled prompt is the
system prompt, the history-start marker, the messages of exactly the
most recent 10 turns in their original order, the history-end marker,
and the user query. -/
theorem C3_last_ten_turns (turns : List Turn) (query context : String)
    (hne : turns ≠ []) :
    OpenAIService.generate_response_messages query context
        (RAGService.historyMessages turns) =
      ⟨"system", OpenAIService.systemPromptContent context⟩ ::
        OpenAIService.historyStartMarker ::
        (RAGService.historyMessages (turns.drop (turns.length - 10)) ++
          [OpenAIService.historyEndMarker, ⟨"user", query⟩]) := by
  unfold OpenAIService.generate_response_messages
  have hne2 : (RAGService.historyMessages turns).isEmpty = false := by
    cases turns with
    | nil => exact absurd rfl hne
    | cons t rest => rfl
  rw [hne2]
  have hlen := historyMessages_length turns
  rw [show (RAGService.historyMessages turns).length - 20 =
      2 * (turns.length - 10) by omega]
  rw [← historyMessages_drop]
  simp

/-- C3 witness: with the 30 concrete turns of `turns30`, the assembled
prompt contains exactly the messages of the last 10 turns. -/
theorem C3_last_ten_turns_witness :
    OpenAIService.generate_response_messages "q" "ctx"
        (RAGService.historyMessages turns30) =
      ⟨"system", OpenAIService.systemPromptContent "ctx"⟩ ::
        OpenAIService.historyStartMarker ::
        (RAGService.historyMessages (turns30.drop 20) ++
          [OpenAIService.historyEndMarker, ⟨"user", "q"⟩]) := by
  have h := C3_last_ten_turns turns30 "q" "ctx" (by decide)
  rw [show turns30.length - 10 = 20 by decide] at h
  exact h

/-- C3 counterexample: turn number 10 of `turns30` is among the 20 most
recent turns, but its user message does not appear in the assembled
prompt (only the last 20 messages, i.e. 10 turns, are kept), refuting
the claim that the prompt contains the most recent 20 turns. -/
theorem C3_counterexample :
    (⟨"user", "u10"⟩ : Msg) ∈ RAGService.historyMessages (turns30.drop 10)
    ∧ (⟨"user", "u10"⟩ : Msg) ∉
      OpenAIService.generate_response_messages "q" "ctx"
        (RAGService.historyMessages turns30) := by
  constructor
  · decide
  · decide

/-- C7: confirmed.  The history query returns exactly the stored turns
of the user within the trailing 86400 seconds, sorted ascending by
`created_at` whatever the storage order; a turn 86401 seconds old
(24h + 1s) is excluded and a turn 86340 seconds old (23h59m) is
included. -/
theorem C7_history_window (uid now : Int) (store : List Turn) :
    List.Sorted RAGService.turnLe (RAGService.conversations24h uid now store)
    ∧ (∀ t, t ∈ RAGService.conversations24h uid now store ↔
        (t ∈ store ∧ t.user_id = uid ∧ now - 86400 ≤ t.created_at))
    ∧ (∀ t ∈ store, t.user_id = uid → t.created_at = now - 86401 →
        t ∉ RAGService.conversations24h uid now store)
    ∧ (∀ t ∈ store, t.user_id = uid → t.created_at = now - 86340 →
        t ∈ RAGService.conversations24h uid now store) := by
  have hmem : ∀ t, t ∈ RAGService.conversations24h uid now store ↔
      (t ∈ store ∧ t.user_id = uid ∧ now - 86400 ≤ t.created_at) := by
    intro t
    unfold RAGService.conversations24h
    rw [List.mem_insertionSort, List.mem_filter]
    simp [and_assoc]
  refine ⟨List.sorted_insertionSort _ _, hmem, ?_, ?_⟩
  · intro t ht huid hct hmem2
    rcases (hmem t).mp hmem2 with ⟨_, _, hle⟩
    omega
  · intro t ht huid hct
    exact (hmem t).mpr ⟨ht, huid, by omega⟩

/-- C7 witness: with `now = 100000`, the turn created at 13599
(86401 seconds earlier) is excluded and the turn created at 13660
(86340 seconds earlier) is included. -/
theorem C7_history_window_witness :
    (⟨1, "m1", "r1", 13599⟩ : Turn) ∉
      RAGService.conversations24h 1 100000
        [⟨1, "m1", "r1", 13599⟩, ⟨1, "m2", "r2", 13660⟩]
    ∧ (⟨1, "m2", "r2", 13660⟩ : Turn) ∈
      RAGService.conversations24h 1 100000
        [⟨1, "m1", "r1", 13599⟩, ⟨1, "m2", "r2", 13660⟩] :=
  ⟨(C7_history_window 1 100000 _).2.2.1 _ (by decide) rfl (by decide),
   (C7_history_window 1 100000 _).2.2.2 _ (by decide) rfl (by decide)⟩

/- ## Similarity search and context fallback -/

/-- C4 counterexample: two stored rows at equal distance from the
query.  Returning them higher-id-first is a valid execution of the
query (it is sorted by distance and is a permutation of the table),
but it violates the claimed lower-id-first tie-break, refuting the
claim. -/
theorem C4_counterexample :
    searchRows [⟨1, "c1", [0]⟩, ⟨2, "c2", [0]⟩] [0] 2
      [⟨2, "c2", [0]⟩, ⟨1, "c1", [0]⟩]
    ∧ ¬ List.Pairwise (distThenIdLt [0])
        [⟨2, "c2", [0]⟩, ⟨1, "c1", [0]⟩] := by
  constructor
  · exact ⟨[⟨2, "c2", [0]⟩, ⟨1, "c1", [0]⟩],
      List.Perm.swap (⟨2, "c2", [0]⟩ : StoredDoc) (⟨1, "c1", [0]⟩ : StoredDoc)
        [], by decide, rfl⟩
  · decide

/-- C4 amended: `search_similar_content` returns at most `k` rows,
ordered by non-decreasing distance from the query embedding (nearest
first); the relative order of equal-distance rows is NOT specified,
because the query has no secondary sort key. -/
theorem C4_search_sorted (table : List StoredDoc) (q : List Int) (k : Nat)
    (rows : List StoredDoc) (h : searchRows table q k rows) :
    rows.length ≤ k ∧ List.Sorted (distLe q) rows ∧
      (searchContents rows).length ≤ k := by
  rcases h with ⟨st, hperm, hsort, rfl⟩
  refine ⟨List.length_take_le _ _, hsort.sublist (List.take_sublist _ _), ?_⟩
  rw [searchContents, List.length_map]
  exact List.length_take_le _ _

/-- C4 witness: three rows at squared distances 1, 25, 81 from the
query; taking the first two of the sorted table is a valid execution
and is sorted nearest-first. -/
theorem C4_search_sorted_witness :
    ([⟨1, "a", [1]⟩, ⟨2, "b", [5]⟩] : List StoredDoc).length ≤ 2 ∧
    List.Sorted (distLe [0]) [⟨1, "a", [1]⟩, ⟨2, "b", [5]⟩] ∧
    (searchContents [⟨1, "a", [1]⟩, ⟨2, "b", [5]⟩]).length ≤ 2 :=
  C4_search_sorted [⟨1, "a", [1]⟩, ⟨2, "b", [5]⟩, ⟨3, "c", [9]⟩] [0] 2
    [⟨1, "a", [1]⟩, ⟨2, "b", [5]⟩]
    ⟨[⟨1, "a", [1]⟩, ⟨2, "b", [5]⟩, ⟨3, "c", [9]⟩], List.Perm.refl _,
     by decide, rfl⟩

lemma joinBlank_foldl_length (rest : List String) :
    ∀ acc : String,
      acc.length ≤ (rest.foldl (fun a x => a ++ "\n\n" ++ x) acc).length := by
  induction rest with
  | nil => intro acc; exact le_refl _
  | cons x xs ih =>
      intro acc
      calc acc.length ≤ (acc ++ "\n\n" ++ x).length := by
            rw [String.length_append, String.length_append]
            omega
        _ ≤ _ := ih _

/-- C8: confirmed.  The context block `get_response` hands to the
generation call is the blank-line join of the similar chunks when
there are any, and the fixed no-relevant-information marker when there
are none; as long as every chunk content is non-empty (which the store
invariant guarantees for persisted rows), the context field is never
the empty string. -/
theorem C8_context_field (similar : List String) :
    (similar ≠ [] →
      RAGService.buildContext similar = RAGService.joinBlank similar)
    ∧ (similar = [] →
      RAGService.buildContext similar = RAGService.noInfoMarker)
    ∧ ((∀ s ∈ similar, s ≠ "") → RAGService.buildContext similar ≠ "") := by
  refine ⟨?_, ?_, ?_⟩
  · intro hne
    unfold RAGService.buildContext
    rw [if_neg]
    simp [List.isEmpty_iff, hne]
  · intro he
    subst he
    rfl
  · intro hall
    cases similar with
    | nil => decide
    | cons s rest =>
        have hs : s ≠ "" := hall s (List.mem_cons_self _ _)
        have hlen : 0 < s.length := by
          rcases Nat.eq_zero_or_pos s.length with h0 | hpos
          · have hdata : s.data = [] := List.length_eq_zero.mp h0
            exact absurd (String.ext hdata) hs
          · exact hpos
        have hgrow := joinBlank_foldl_length rest s
        intro hctx
        have hj : RAGService.joinBlank (s :: rest) = "" := hctx
        have h0 : (rest.foldl (fun a x => a ++ "\n\n" ++ x) s).length = 0 := by
          rw [show rest.foldl (fun a x => a ++ "\n\n" ++ x) s =
              RAGService.joinBlank (s :: rest) from rfl, hj]
          rfl
        omega

/-- C8 witness: a single non-empty chunk yields a non-empty context. -/
theorem C8_context_field_witness : RAGService.buildContext ["abc"] ≠ "" :=
  (C8_context_field ["abc"]).2.2 (by decide)
